import Mathlib

/-!
Verification development for the Chase → Pipefy database importer
(src/sync_chase_to_pipefy_db.py).

Python strings are modelled as `List Char`, Python values occurring in
records (strings, ints, None) as `PyVal`, and Python dicts as association
lists with first-match lookup and in-place overwrite on re-assignment
(mirroring CPython dict semantics: insertion order preserved, assignment
to an existing key keeps its position).

Recursive string helpers use an explicit fuel argument (always instantiated
with the input length, which is a sufficient bound) so that every
definition is structurally recursive and evaluable by kernel reduction.
-/

namespace ChasePipefy

abbrev Str := List Char

/-- Python `str.isspace` characters relevant to `str.split()` (ASCII set). -/
def isSpace (c : Char) : Bool :=
  c = ' ' || c = '\t' || c = '\n' || c = '\r' || c = '\x0b' || c = '\x0c'

/-- Fuel-driven core of Python `str.split()` (split on whitespace runs,
dropping empty tokens). -/
def wordsAux : Nat → Str → List Str
  | 0, _ => []
  | _, [] => []
  | fuel + 1, c :: cs =>
    if isSpace c then wordsAux fuel cs
    else (c :: cs.takeWhile (fun d => !isSpace d)) ::
      wordsAux fuel (cs.dropWhile (fun d => !isSpace d))

/-- Python `str.split()` with no separator argument. -/
def pyWords (s : Str) : List Str := wordsAux s.length s

/-- Python `' '.join(ws)`. -/
def joinSp : List Str → Str
  | [] => []
  | [w] => w
  | w :: ws => w ++ ' ' :: joinSp ws

/-- Python `' '.join(str(value).split())`: trim and collapse internal whitespace. -/
def normalizeWs (s : Str) : Str := joinSp (pyWords s)

/-- Python `s.replace(c, repl)` for a single-character pattern `c`. -/
def replaceChar (c : Char) (repl : Str) (s : Str) : Str :=
  s.flatMap (fun ch => if ch = c then repl else [ch])

/-- The escape chain of `sanitize_graphql_string`, applied in source order:
backslash, double quote, newline, carriage return, tab. -/
def escapeGql (s : Str) : Str :=
  replaceChar '\t' ['\\', 't']
    (replaceChar '\r' ['\\', 'r']
      (replaceChar '\n' ['\\', 'n']
        (replaceChar '"' ['\\', '"']
          (replaceChar '\\' ['\\', '\\'] s))))

/-- Decimal digit to character (defined by cases so facts about it are
decidable by `decide`). -/
def digitChar' (d : Nat) : Char :=
  match d with
  | 0 => '0' | 1 => '1' | 2 => '2' | 3 => '3' | 4 => '4'
  | 5 => '5' | 6 => '6' | 7 => '7' | 8 => '8' | _ => '9'

/-- Fuel-driven decimal rendering of a natural number (most significant
digit first), fuel `n + 1` suffices. -/
def natDecAux : Nat → Nat → Str
  | 0, _ => []
  | fuel + 1, n =>
    if n < 10 then [digitChar' n]
    else natDecAux fuel (n / 10) ++ [digitChar' (n % 10)]

/-- Python `str(n)` for a natural number. -/
def natDec (n : Nat) : Str := natDecAux (n + 1) n

/-- Decimal parsing, used to show `natDec` is injective. -/
def parseDec (s : Str) : Nat :=
  s.foldl (fun a c => 10 * a + (c.toNat - 48)) 0

/-- Python `str(n)` for an integer. -/
def intStr (n : Int) : Str :=
  if n < 0 then '-' :: natDec (-n).toNat else natDec n.toNat

/-- A Python value stored in a record: a string, an integer, or `None`. -/
inductive PyVal where
  | s (v : Str)
  | i (n : Int)
  | null
deriving DecidableEq, Repr

/-- Python `str(value)`. -/
def pyStr : PyVal → Str
  | .s v => v
  | .i n => intStr n
  | .null => ['N', 'o', 'n', 'e']

/-- Python truthiness of a value. -/
def pyTruthy : PyVal → Bool
  | .s v => !v.isEmpty
  | .i n => n != 0
  | .null => false

/-! ### Python dicts as association lists -/

/-- First-match association-list lookup (Python `d[k]` / `d.get(k)`). -/
def dget {β : Type} : List (Str × β) → Str → Option β
  | [], _ => none
  | (k', v) :: rest, k => if k' = k then some v else dget rest k

/-- Python `k in d`. -/
def dmem {β : Type} (d : List (Str × β)) (k : Str) : Bool :=
  (dget d k).isSome

/-- Python `d[k] = v`: overwrite in place if present, else append
(CPython keeps the original insertion position on overwrite). -/
def dictSet {β : Type} : List (Str × β) → Str → β → List (Str × β)
  | [], k, v => [(k, v)]
  | (k', v') :: rest, k, v =>
    if k' = k then (k', v) :: rest else (k', v') :: dictSet rest k v

/-- A record: a Python dict from attribute name to value. -/
abbrev Record := List (Str × PyVal)

/-- Python `record.get(k)`: `None` when the key is absent. -/
def pyGet (r : Record) (k : Str) : PyVal := (dget r k).getD .null

/-- Python `record.get(k, d)`. -/
def pyGetD (r : Record) (k : Str) (d : PyVal) : PyVal := (dget r k).getD d

/-! ### String constants from the source -/

def sStatus : Str := "status".data
def sActive : Str := "Active".data
def sArchived : Str := "Archived".data
def sTitle : Str := "title".data
def sCurrentTitle : Str := "current_title".data
def sPipefyRecordId : Str := "pipefy_record_id".data
def sProductName : Str := "product_name".data
def sBusinessUnitName : Str := "business_unit_name".data
def sDivisionName : Str := "division_name".data
def sDivisionId : Str := "division_id".data
def sCustomerId : Str := "customer_id".data
def sCreate : Str := "create".data
def sUpdate : Str := "update".data
def sArchive : Str := "archive".data
def sCurrentPhase : Str := "current_phase".data
def sMut : Str := "mut_".data
def sTtl : Str := "_ttl".data
/-- Constant `DIVISIONS_TABLE_ID = "306760306"`. -/
def DIVISIONS_TABLE_ID : Str := "306760306".data

/-! ### sanitize_graphql_string -/

/-- Source `sanitize_graphql_string(value)`: empty string for `None`, otherwise
whitespace normalization of `str(value)` followed by the escape chain. -/
def sanitize_graphql_string (v : PyVal) : Str :=
  match v with
  | .null => []
  | v => escapeGql (normalizeWs (pyStr v))

/-- The destination-side normalization applied in `sync_table`
(lines 481-484): `None` becomes `""`, any other value becomes
`' '.join(str(value).split())` (no escaping). -/
def pipefyNormVal (v : PyVal) : Str :=
  match v with
  | .null => []
  | v => normalizeWs (pyStr v)

/-- Title derivation used identically in the create branch, the update
branch and `sync_table`: the first of `product_name`,
`business_unit_name`, `division_name` present on the record (membership
test, not truthiness), sanitized. -/
def derive_title (r : Record) : Str :=
  if dmem r sProductName then sanitize_graphql_string (pyGet r sProductName)
  else if dmem r sBusinessUnitName then
    sanitize_graphql_string (pyGet r sBusinessUnitName)
  else if dmem r sDivisionName then
    sanitize_graphql_string (pyGet r sDivisionName)
  else []

/-! ### build_pipefy_mutations -/

/-- Per-table field schema: `field_mapping["keys"]` and
`field_mapping["fields"]` (logical name → destination slug, in
declaration order). -/
structure FieldMapping where
  keys : List Str
  fields : List (Str × Str)
deriving DecidableEq, Repr

/-- Regex `\w` (ASCII): letters, digits, underscore. -/
def isWordChar (c : Char) : Bool := c.isAlphanum || c = '_'

/-- Whether the regex replacement prepends an underscore:
`^(?=\d)` matches exactly when the string starts with a digit
(a digit is a word character, so `\W` cannot match there first). -/
def headDigit : Str → Bool
  | [] => false
  | c :: _ => c.isDigit

/-- The per-character `\W → '_'` replacement. -/
def phiW (c : Char) : Char := if isWordChar c then c else '_'

/-- Python `re.sub(r'\W|^(?=\d)', '_', s)`: every non-word character becomes an
underscore, and a leading digit additionally gets an underscore
prepended. -/
def reSub (s : Str) : Str :=
  (if headDigit s then ['_'] else []) ++ s.map phiW

/-- Python `sep.join(parts)`. -/
def joinWith (sep : Str) : List Str → Str
  | [] => []
  | [w] => w
  | w :: ws => w ++ sep ++ joinWith sep ws

/-- The structured content of one GraphQL mutation fragment, as assembled
by the f-strings in `build_pipefy_mutations` (each constructor records
exactly the values interpolated into the corresponding template). -/
inductive MutationBody where
  | createTableRecord (table_id : Str) (title : Str)
      (fields_attributes : List (Str × Str))
  | updateFieldsValues (nodeId : Str) (values : List (Str × Str))
  | updateTableRecord (id : Str) (title : Str)
  | updateTableRecordField (table_record_id : Str) (field_id : Str)
      (new_value : Str)
deriving DecidableEq, Repr

/-- One aliased mutation fragment `"{aliasName}: {body}"`. -/
structure Mutation where
  aliasName : Str
  body : MutationBody
deriving DecidableEq, Repr

/-- Constant `title_keys = ["product_name", "business_unit_name", "division_name"]`. -/
def title_keys : List Str := [sProductName, sBusinessUnitName, sDivisionName]

/-- The alias suffix of record number `i`:
`re.sub(r'\W|^(?=\d)', '_', f"{alias_action}_{i}_{'_'.join(key_values)}")`
where `key_values = [str(record.get(k, '')) for k in key_identifiers]`. -/
def uniqueSuffix (action : Str) (fm : FieldMapping) (i : Nat) (r : Record) :
    Str :=
  let aliasAction := replaceChar '-' ['_'] action
  let keyValues := fm.keys.map (fun k => pyStr (pyGetD r k (.s [])))
  reSub (aliasAction ++ '_' :: natDec i ++ '_' :: joinWith ['_'] keyValues)

/-- Whether `reSub` will prepend an underscore to
`f"{alias_action}_{i}_..."`: decided by the first character of the
mapped action name (or the following separator when it is empty), the
same for every record of one call. -/
def hdFlag (aliasAction : Str) : Bool :=
  match aliasAction with
  | [] => false
  | c :: _ => c.isDigit

/-- The alias part shared by every fragment of one
`build_pipefy_mutations` call: `"mut_"`, the optional leading-digit
underscore, the mapped action name, and the separator before the record
index. -/
def aliasQ (action : Str) : Str :=
  sMut ++
    ((if hdFlag (replaceChar '-' ['_'] action) then ['_'] else []) ++
      ((replaceChar '-' ['_'] action).map phiW ++ ['_']))

/-- Python `'_'.join(key_values)` of a record's stringified key values. -/
def keyJoin (fm : FieldMapping) (r : Record) : Str :=
  joinWith ['_'] (fm.keys.map (fun k => pyStr (pyGetD r k (.s []))))

/-- The create-branch guard
`all(str(record.get(k)) for k in key_identifiers if k in record)`:
note the generator skips key attributes absent from the record, and a
stored `None` stringifies to the truthy string None. -/
def createKeysOk (fm : FieldMapping) (r : Record) : Bool :=
  fm.keys.all (fun k => if dmem r k then !(pyStr (pyGet r k)).isEmpty
                        else true)

/-- The create-branch `fields_to_set`: dict comprehension over the field
mapping restricted to attributes present on the record, then
`fields_to_set["status"] = "Active"`. -/
def createFieldsToSet (fm : FieldMapping) (r : Record) : List (Str × Str) :=
  dictSet
    (fm.fields.foldl
      (fun acc kv =>
        if dmem r kv.1 then
          dictSet acc kv.2 (sanitize_graphql_string (pyGet r kv.1))
        else acc)
      [])
    sStatus sActive

/-- The update-branch `fields_to_set`: non-key, non-title attributes
present on the record, then
`fields_to_set["status"] = sanitize_graphql_string(record.get("status", "Active"))`.
The subsequent `if val is not None` filter in the source is vacuous
because `sanitize_graphql_string` always returns a string, so
`field_values` equals this dict. -/
def updateFieldsToSet (fm : FieldMapping) (r : Record) : List (Str × Str) :=
  dictSet
    (fm.fields.foldl
      (fun acc kv =>
        if kv.1 ∉ fm.keys ∧ kv.1 ∉ title_keys ∧ dmem r kv.1 then
          dictSet acc kv.2 (sanitize_graphql_string (pyGet r kv.1))
        else acc)
      [])
    sStatus (sanitize_graphql_string (pyGetD r sStatus (.s sActive)))

/-- The fragments contributed by record number `i` in the
`for i, record in enumerate(records)` loop of `build_pipefy_mutations`.
`done_phase_id` stands for the value `get_done_phase_id(table_id)`
returns in the archive branch (the terminal-phase resolution is a
network call; its result is passed in here as a parameter). -/
def buildOne (table_id : Str) (action : Str) (fm : FieldMapping)
    (done_phase_id : Option Str) (i : Nat) (r : Record) : List Mutation :=
  let suffix := uniqueSuffix action fm i r
  let rid := pyGet r sPipefyRecordId
  if action = sCreate then
    if !createKeysOk fm r then []
    else
      [⟨sMut ++ suffix,
        .createTableRecord table_id (derive_title r) (createFieldsToSet fm r)⟩]
  else if action = sUpdate then
    if !pyTruthy rid then []
    else
      let fieldValues := updateFieldsToSet fm r
      let newTitle := derive_title r
      let currentTitle := pyGetD r sCurrentTitle (.s [])
      let titleNeedsUpdate :=
        !newTitle.isEmpty && decide (currentTitle ≠ PyVal.s newTitle)
      if !fieldValues.isEmpty || titleNeedsUpdate then
        (if !fieldValues.isEmpty then
          [⟨sMut ++ suffix, .updateFieldsValues (pyStr rid) fieldValues⟩]
         else []) ++
        (if titleNeedsUpdate then
          [⟨sMut ++ suffix ++ sTtl, .updateTableRecord (pyStr rid) newTitle⟩]
         else [])
      else []
  else if action = sArchive then
    if !pyTruthy rid then []
    else
      match done_phase_id with
      | some ph =>
        [⟨sMut ++ suffix,
          .updateTableRecordField (pyStr rid) sCurrentPhase ph⟩]
      | none =>
        [⟨sMut ++ suffix,
          .updateFieldsValues (pyStr rid) [(sStatus, sArchived)]⟩]
  else []

/-- Source `build_pipefy_mutations(records, table_id, action, field_mapping)`:
one pass over `enumerate(records)`, appending each record's fragments. -/
def build_pipefy_mutations (records : List Record) (table_id : Str)
    (action : Str) (fm : FieldMapping) (done_phase_id : Option Str) :
    List Mutation :=
  (records.enum.map
    (fun p => buildOne table_id action fm done_phase_id p.1 p.2)).flatten

/-! ### sync_table reconciliation -/

/-- The identity key of `sync_table.get_key`: stringified key-attribute
values joined by `-` (destination records are read through the slug
mapping), with the divisions-table override that always uses
`division_id` and `customer_id`. A key attribute missing from the field
mapping contributes the slug `None` on the destination side, and
`record.get` of that absent key yields `''`; both are modelled as the
empty contribution, matching `record.get(None, '')`. -/
def get_key (fm : FieldMapping) (table_id : Str) (is_pipefy : Bool)
    (r : Record) : Str :=
  let keyParts :=
    if table_id = DIVISIONS_TABLE_ID then
      [ pyStr (pyGetD r
          (if is_pipefy then (dget fm.fields sDivisionId).getD [] else
            sDivisionId) (.s []))
      , pyStr (pyGetD r
          (if is_pipefy then (dget fm.fields sCustomerId).getD [] else
            sCustomerId) (.s [])) ]
    else
      fm.keys.map (fun k =>
        pyStr (pyGetD r
          (if is_pipefy then (dget fm.fields k).getD [] else k) (.s [])))
  joinWith ['-'] keyParts

/-- Python `{get_key(r): r for r in rs}`: a dict comprehension; a later record
with the same key overwrites the earlier one in place. -/
def buildMap (key : Record → Str) (rs : List Record) : List (Str × Record) :=
  rs.foldl (fun m r => dictSet m (key r) r) []

/-- The `needs_update` flag computed in `sync_table` for a record present
in both maps: some non-key mapped field differs (sanitized source value
vs. whitespace-normalized destination value), or the derived title is
non-empty and differs from the current destination title, or the
destination status is not `"Active"`. -/
def needs_update (fm : FieldMapping) (cr pr : Record) : Bool :=
  (fm.fields.any (fun kv =>
      decide (kv.1 ∉ fm.keys) &&
      decide (sanitize_graphql_string (pyGet cr kv.1) ≠
        pipefyNormVal (pyGet pr kv.2))))
  || (!(derive_title cr).isEmpty &&
        decide (pyGetD pr sTitle (.s []) ≠ PyVal.s (derive_title cr)))
  || decide (pyGet pr sStatus ≠ PyVal.s sActive)

/-- The `update_data` record pushed onto `to_update`: a copy of the
source record with the destination record id, the previous title, and
status forced to `"Active"`. -/
def update_data (cr pr : Record) : Record :=
  dictSet
    (dictSet
      (dictSet cr sPipefyRecordId (pyGet pr sPipefyRecordId))
      sCurrentTitle (pyGetD pr sTitle (.s [])))
    sStatus (.s sActive)

/-- Contribution of one source-map entry to `to_create`: the record when
its key is absent from the destination map. -/
def classify_create (pipefy_map : List (Str × Record)) (kv : Str × Record) :
    Option Record :=
  if (dget pipefy_map kv.1).isNone then some kv.2 else none

/-- Contribution of one source-map entry to `to_update`. -/
def classify_update (fm : FieldMapping) (pipefy_map : List (Str × Record))
    (kv : Str × Record) : Option Record :=
  match dget pipefy_map kv.1 with
  | none => none
  | some pr =>
    if needs_update fm kv.2 pr then some (update_data kv.2 pr) else none

/-- Contribution of one destination-map entry to `to_archive`: the record
when its key is absent from the source map and its status is not already
`"Archived"`. -/
def classify_archive (chase_map : List (Str × Record)) (kv : Str × Record) :
    Option Record :=
  if (dget chase_map kv.1).isNone &&
      decide (pyGet kv.2 sStatus ≠ PyVal.s sArchived) then
    some kv.2
  else none

/-- The diff phase of `sync_table` (lines 460-515): build the two keyed
maps, then classify every entry. The single Python loop over
`chase_map.items()` appends to `to_create` and `to_update`
independently, so it equals these two `filterMap` passes. -/
def sync_diff (chase_data_list : List Record) (pipefy_data : List Record)
    (table_id : Str) (fm : FieldMapping) :
    List Record × List Record × List Record :=
  let chase_map := buildMap (get_key fm table_id false) chase_data_list
  let pipefy_map := buildMap (get_key fm table_id true) pipefy_data
  ( chase_map.filterMap (classify_create pipefy_map)
  , chase_map.filterMap (classify_update fm pipefy_map)
  , pipefy_map.filterMap (classify_archive chase_map) )

/-! ### Transport models: chase_api_get and pipefy_post

Each HTTP attempt's observable outcome is an environment input; the
retry loops (`for attempt in range(3)`) are run over an explicit list of
the three attempt outcomes, the tail of the list playing the role of the
remaining attempts (`attempt < max_retries - 1` ⟺ the tail is
non-empty). -/

/-- Outcome of one `session.get` attempt in `chase_api_get`. -/
inductive ChaseAttempt (α : Type) where
  | ok (v : α)
  | okEmptyBody
  | okInvalidJson
  | timeout
  | httpError (status : Option Nat)
deriving DecidableEq, Repr

/-- Value returned by `chase_api_get`: the parsed JSON, the literal `[]`
returned for an empty body, or Python `None` (modelled as `Option.none`)
for every failure. -/
inductive ChaseResp (α : Type) where
  | value (v : α)
  | emptyList
deriving DecidableEq, Repr

/-- Condition `status is not None and 400 <= status < 500 and status != 429`. -/
def clientErrorNoRetry (status : Option Nat) : Bool :=
  match status with
  | none => false
  | some s => decide (400 ≤ s) && decide (s < 500) && decide (s ≠ 429)

/-- The retry loop of `chase_api_get` over the listed attempt outcomes:
timeouts and retriable request errors fall through to the next attempt,
a non-429 4xx returns `None` immediately, a non-JSON body returns
`None`, and exhausting the attempts returns `None`. -/
def chase_run {α : Type} : List (ChaseAttempt α) → Option (ChaseResp α)
  | [] => none
  | a :: rest =>
    match a with
    | .ok v => some (.value v)
    | .okEmptyBody => some .emptyList
    | .okInvalidJson => none
    | .timeout => if rest.isEmpty then none else chase_run rest
    | .httpError status =>
      if clientErrorNoRetry status then none
      else if rest.isEmpty then none else chase_run rest

/-- Source `chase_api_get` with `max_retries = 3`. -/
def chase_api_get {α : Type} (a0 a1 a2 : ChaseAttempt α) :
    Option (ChaseResp α) :=
  chase_run [a0, a1, a2]

/-- Outcome of one `session.post` attempt in `pipefy_post`:
a parsed body (flagged by whether it contains an `"errors"` key), an
unparseable body, a timeout, or a request error with optional status. -/
inductive PipefyAttempt (α : Type) where
  | ok (hasErrors : Bool) (v : α)
  | okInvalidJson
  | timeout
  | httpError (status : Option Nat) (detail : Str)
deriving DecidableEq, Repr

/-- Value returned by `pipefy_post`: either a server-parsed document, or
one of the synthesized `{"errors": [{"message": msg}]}` documents, kept
as the message string they carry. -/
inductive PipefyResp (α : Type) where
  | serverDoc (hasErrors : Bool) (v : α)
  | errorsDoc (msg : Str)
deriving DecidableEq, Repr

def msgClientErrorHead : Str := "Pipefy Client Error: ".data
def msgNonJson : Str := "Pipefy returned non-JSON response".data
def msgExhausted : Str := "Pipefy API call failed after multiple retries".data

/-- The retry loop of `pipefy_post` over the listed attempt outcomes. A
parsed body with GraphQL errors is retried but returned as-is on the
final attempt; a non-429 4xx and an unparseable body synthesize error
documents immediately; exhausting the attempts synthesizes the
"multiple retries" document. -/
def pipefy_run {α : Type} : List (PipefyAttempt α) → PipefyResp α
  | [] => .errorsDoc msgExhausted
  | a :: rest =>
    match a with
    | .ok hasErrors v =>
      if hasErrors then
        if rest.isEmpty then .serverDoc true v else pipefy_run rest
      else .serverDoc false v
    | .okInvalidJson => .errorsDoc msgNonJson
    | .timeout =>
      if rest.isEmpty then .errorsDoc msgExhausted else pipefy_run rest
    | .httpError status detail =>
      if clientErrorNoRetry status then
        .errorsDoc (msgClientErrorHead ++ detail)
      else if rest.isEmpty then .errorsDoc msgExhausted
      else pipefy_run rest

/-- Source `pipefy_post` with `max_retries = 3`. -/
def pipefy_post {α : Type} (a0 a1 a2 : PipefyAttempt α) : PipefyResp α :=
  pipefy_run [a0, a1, a2]

/-! ### execute_pipefy_mutations -/

/-- The per-alias result inside a batch response's `data` dict:
`None`, a dict (with the truthiness of `result.get("table_record")` and
whether `result.get("clientMutationId")` is non-`None`), or an
unexpected non-dict value. -/
inductive AliasRes where
  | nullV
  | dict (tableRecordTruthy : Bool) (clientMutationIdNonNull : Bool)
  | nonDict
deriving DecidableEq, Repr

/-- Success classification of one alias result (line 408). -/
def aliasSuccess : AliasRes → Bool
  | .dict tr cm => tr || cm
  | _ => false

/-- The response `pipefy_post` hands back for one batch, at the
granularity `execute_pipefy_mutations` inspects it: either falsy /
containing an `"errors"` key (line 388), or a document whose `data`
dict maps aliases to results. -/
inductive BatchResp where
  | failedResp
  | okResp (data : List (Str × AliasRes))
deriving DecidableEq, Repr

/-- The `success_count` over a batch response's data dict. -/
def countSuccess (data : List (Str × AliasRes)) : Nat :=
  (data.filter (fun kv => aliasSuccess kv.2)).length

/-- Fuel-driven chunking `muts[i:i+50]` for `i in range(0, len, 50)`;
fuel `l.length` suffices since every step consumes a non-empty list. -/
def chunksAux {α : Type} : Nat → List α → List (List α)
  | 0, _ => []
  | _, [] => []
  | fuel + 1, l => l.take 50 :: chunksAux fuel (l.drop 50)

/-- The batches of size 50 formed by `execute_pipefy_mutations`. -/
def chunksOf {α : Type} (l : List α) : List (List α) :=
  chunksAux l.length l

/-- Source `execute_pipefy_mutations(mutations)`: empty input returns `True`
without consulting the transport; otherwise every batch is submitted
(the environment `env` gives batch number `b`'s response) and the
`all_successful` flag is cleared by a transport/errors failure or by a
batch whose success count falls short of its length, without stopping
the loop. -/
def execute_pipefy_mutations (muts : List Mutation)
    (env : Nat → BatchResp) : Bool :=
  if muts.isEmpty then true
  else
    (chunksOf muts).enum.foldl
      (fun flag p =>
        match env p.1 with
        | .failedResp => false
        | .okResp data =>
          if countSuccess data = p.2.length then flag else false)
      true

/-- Per-batch verdict used to restate the fold: transport/errors failure
or a success count different from the batch length fails the batch. -/
def batchVerdict (r : BatchResp) (batch : List Mutation) : Bool :=
  match r with
  | .failedResp => false
  | .okResp data => countSuccess data = batch.length

/-- "every alias in the batch response was classified as success". -/
def batchAllOk (r : BatchResp) : Bool :=
  match r with
  | .failedResp => false
  | .okResp data => data.all (fun kv => aliasSuccess kv.2)

/-- The response's data dict has one entry per fragment of the batch
(the well-formedness under which success-count equality means
all-aliases-success). -/
def respLenOk (r : BatchResp) (batch : List Mutation) : Bool :=
  match r with
  | .failedResp => true
  | .okResp data => data.length = batch.length

/-! ### Concrete configuration data from main() and helper measures -/

/-- Source `bu_agency_field_map` (lines 533-540). -/
def bu_agency_field_map : FieldMapping :=
  ⟨[ "config_id".data, "business_unit_id".data ]
  , [ ("config_id".data, "config_id".data)
    , ("business_unit_id".data, "business_unit_id".data)
    , ("business_unit_name".data, "business_unit_name".data) ]⟩

/-- Source `divisions_field_map` (lines 554-562). -/
def divisions_field_map : FieldMapping :=
  ⟨[ "division_id".data, "customer_id".data ]
  , [ ("division_id".data, "division_id".data)
    , ("division_name".data, "division_name".data)
    , ("customer_id".data, "customer_id".data)
    , ("customer_name".data, "customer_name".data) ]⟩

/-- Number of `updateFieldsValues` (field-update) fragments in a batch. -/
def countFieldFrags (ms : List Mutation) : Nat :=
  (ms.filter (fun m =>
    match m.body with
    | .updateFieldsValues _ _ => true
    | _ => false)).length

/-- Number of `updateTableRecord` (title-update) fragments in a batch. -/
def countTitleFrags (ms : List Mutation) : Nat :=
  (ms.filter (fun m =>
    match m.body with
    | .updateTableRecord _ _ => true
    | _ => false)).length

/-- A source business-unit record whose destination twin `exPipefyEq`
matches it exactly (sanitized fields, title, active status). -/
def exChaseEq : Record :=
  [ ("config_id".data, .i 1), ("business_unit_id".data, .i 2)
  , (sBusinessUnitName, .s ("Acme".data)), (sStatus, .s sActive) ]

/-- The matching destination record for `exChaseEq`. -/
def exPipefyEq : Record :=
  [ (sPipefyRecordId, .s ("r9".data)), (sTitle, .s ("Acme".data))
  , ("config_id".data, .s ("1".data)), ("business_unit_id".data, .s ("2".data))
  , (sBusinessUnitName, .s ("Acme".data)), (sStatus, .s sActive) ]

/-- A source record differing from `exPipefyOldTitle` only in the
title-deriving field `business_unit_name`. -/
def exChaseNewTitle : Record :=
  [ ("config_id".data, .i 1), ("business_unit_id".data, .i 2)
  , (sBusinessUnitName, .s ("New".data)), (sStatus, .s sActive) ]

/-- The destination record for `exChaseNewTitle`, still titled Old. -/
def exPipefyOldTitle : Record :=
  [ (sPipefyRecordId, .s ("p1".data)), (sTitle, .s ("Old".data))
  , ("config_id".data, .s ("1".data)), ("business_unit_id".data, .s ("2".data))
  , (sBusinessUnitName, .s ("Old".data)), (sStatus, .s sActive) ]

/-- A create candidate missing every declared key attribute
(`config_id` and `business_unit_id` absent). -/
def exCreateMissingKeys : Record := [ (sBusinessUnitName, .s ("X".data)) ]

/-- A destination-only record, status not yet archived. -/
def exPipefyOrphan : Record :=
  [ (sPipefyRecordId, .s ("p7".data)), (sTitle, .s ("Gone".data))
  , ("config_id".data, .s ("3".data)), ("business_unit_id".data, .s ("4".data))
  , (sBusinessUnitName, .s ("Gone".data)), (sStatus, .s sActive) ]

/-- A generic table id used for concrete instances (not the divisions
table, so the standard key path applies). -/
def exTableId : Str := "306759746".data

/-- A throwaway concrete fragment for closed instances. -/
def exMutation : Mutation :=
  ⟨"a".data, .updateTableRecord ("x".data) ("t".data)⟩

/-- The shared identity key of `exChaseEq` / `exPipefyEq`. -/
def exKey : Str := "1-2".data

/-- The `to_update` entry reconciliation produces for the
`exChaseNewTitle` / `exPipefyOldTitle` pair. -/
def exUpdateRec : Record := update_data exChaseNewTitle exPipefyOldTitle

/-! ## Lemmas -/

/-- Specification of the fuel-driven chunking, for sufficient fuel:
concatenation restores the input, the number of chunks is
`⌈length/50⌉`, and every chunk has at most 50 elements. -/
theorem chunksAux_spec {α : Type} :
    ∀ (fuel : Nat) (l : List α), l.length ≤ fuel →
      (chunksAux fuel l).flatten = l ∧
      (chunksAux fuel l).length = (l.length + 49) / 50 ∧
      ∀ c ∈ chunksAux fuel l, c.length ≤ 50 := by
  intro fuel
  induction fuel with
  | zero =>
    intro l hl
    have hnil : l = [] := List.eq_nil_of_length_eq_zero (Nat.le_zero.mp hl)
    subst hnil
    have h0 : chunksAux 0 ([] : List α) = [] := rfl
    rw [h0]
    refine ⟨rfl, by simp, ?_⟩
    intro c hc
    exact absurd hc (List.not_mem_nil c)
  | succ fuel ih =>
    intro l hl
    match l with
    | [] =>
      have h0 : chunksAux (fuel + 1) ([] : List α) = [] := rfl
      rw [h0]
      refine ⟨rfl, by simp, ?_⟩
      intro c hc
      exact absurd hc (List.not_mem_nil c)
    | a :: l' =>
      have hdrop : ((a :: l').drop 50).length ≤ fuel := by
        simp only [List.length_drop, List.length_cons]
        simp only [List.length_cons] at hl
        omega
      obtain ⟨h1, h2, h3⟩ := ih ((a :: l').drop 50) hdrop
      have hstep : chunksAux (fuel + 1) (a :: l') =
          (a :: l').take 50 :: chunksAux fuel ((a :: l').drop 50) := rfl
      rw [hstep]
      refine ⟨?_, ?_, ?_⟩
      · rw [List.flatten_cons, h1, List.take_append_drop]
      · rw [List.length_cons, h2, List.length_drop]
        simp only [List.length_cons]
        omega
      · intro c hc
        rcases List.mem_cons.mp hc with hc | hc
        · subst hc
          exact List.length_take_le 50 (a :: l')
        · exact h3 c hc

/-- The `all_successful` fold of `execute_pipefy_mutations` equals the
conjunction, over every batch, of the per-batch verdict: a failure
clears the flag but the fold still consumes every remaining batch. -/
theorem exec_foldl (env : Nat → BatchResp) :
    ∀ (l : List (Nat × List Mutation)) (flag : Bool),
      l.foldl
        (fun flag p =>
          match env p.1 with
          | .failedResp => false
          | .okResp data =>
            if countSuccess data = p.2.length then flag else false)
        flag
      = (flag && l.all (fun p => batchVerdict (env p.1) p.2)) := by
  intro l
  induction l with
  | nil => intro flag; simp
  | cons p l ih =>
    intro flag
    simp only [List.foldl_cons, List.all_cons]
    cases henv : env p.1 with
    | failedResp =>
      dsimp only
      rw [ih]
      simp [batchVerdict]
    | okResp data =>
      dsimp only
      by_cases hc : countSuccess data = p.2.length
      · rw [if_pos hc, ih]
        simp [batchVerdict, hc]
      · rw [if_neg hc, ih]
        simp [batchVerdict, hc]

/-- A batch response's success count reaches the size of its data dict
exactly when every alias result in it is classified as success. -/
theorem countSuccess_eq_iff (data : List (Str × AliasRes)) :
    countSuccess data = data.length ↔
      data.all (fun kv => aliasSuccess kv.2) = true := by
  unfold countSuccess
  constructor
  · intro h
    have hself := List.Sublist.eq_of_length (List.filter_sublist data) h
    rw [List.all_eq_true]
    intro kv hkv
    exact List.filter_eq_self.mp hself kv hkv
  · intro h
    rw [List.filter_eq_self.mpr]
    intro a ha
    exact List.all_eq_true.mp h a ha

/-- Members of `takeWhile p` satisfy `p`. -/
theorem mem_takeWhile_pred {p : Char → Bool} :
    ∀ {l : Str} {a : Char}, a ∈ l.takeWhile p → p a = true := by
  intro l
  induction l with
  | nil => intro a ha; simp [List.takeWhile] at ha
  | cons c cs ih =>
    intro a ha
    rw [List.takeWhile_cons] at ha
    by_cases hc : p c = true
    · rw [if_pos hc] at ha
      rcases List.mem_cons.mp ha with h | h
      · subst h; exact hc
      · exact ih h
    · rw [if_neg hc] at ha
      exact absurd ha (List.not_mem_nil a)

/-- Running `takeWhile` over a list all of whose elements satisfy `p`. -/
theorem takeWhile_all {p : Char → Bool} :
    ∀ {l : Str}, (∀ x ∈ l, p x = true) → l.takeWhile p = l := by
  intro l
  induction l with
  | nil => intro _; rfl
  | cons c cs ih =>
    intro h
    rw [List.takeWhile_cons, if_pos (h c (List.mem_cons_self c cs))]
    rw [ih (fun x hx => h x (List.mem_cons_of_mem c hx))]

/-- Running `dropWhile` over a list all of whose elements satisfy `p`. -/
theorem dropWhile_all {p : Char → Bool} :
    ∀ {l : Str}, (∀ x ∈ l, p x = true) → l.dropWhile p = [] := by
  intro l
  induction l with
  | nil => intro _; rfl
  | cons c cs ih =>
    intro h
    rw [List.dropWhile_cons, if_pos (h c (List.mem_cons_self c cs))]
    exact ih (fun x hx => h x (List.mem_cons_of_mem c hx))

/-- A `takeWhile` stops exactly at the first failing element. -/
theorem takeWhile_app {p : Char → Bool} :
    ∀ (xs : Str) (y : Char) (t : Str), (∀ x ∈ xs, p x = true) →
      p y = false → (xs ++ y :: t).takeWhile p = xs := by
  intro xs
  induction xs with
  | nil =>
    intro y t _ hy
    simp only [List.nil_append, List.takeWhile_cons]
    rw [hy]
    rfl
  | cons c cs ih =>
    intro y t hall hy
    simp only [List.cons_append, List.takeWhile_cons]
    rw [if_pos (hall c (List.mem_cons_self c cs))]
    rw [ih y t (fun x hx => hall x (List.mem_cons_of_mem c hx)) hy]

/-- A `dropWhile` drops exactly up to the first failing element. -/
theorem dropWhile_app {p : Char → Bool} :
    ∀ (xs : Str) (y : Char) (t : Str), (∀ x ∈ xs, p x = true) →
      p y = false → (xs ++ y :: t).dropWhile p = y :: t := by
  intro xs
  induction xs with
  | nil =>
    intro y t _ hy
    simp only [List.nil_append, List.dropWhile_cons]
    rw [hy]
    rfl
  | cons c cs ih =>
    intro y t hall hy
    simp only [List.cons_append, List.dropWhile_cons]
    rw [if_pos (hall c (List.mem_cons_self c cs))]
    exact ih y t (fun x hx => hall x (List.mem_cons_of_mem c hx)) hy

/-- Applying `wordsAux` to the empty string is empty for every fuel. -/
theorem wordsAux_nil : ∀ fuel, wordsAux fuel [] = [] := by
  intro fuel
  cases fuel <;> rfl

/-- Every token produced by `wordsAux` (with sufficient fuel) is
non-empty and consists of non-whitespace characters of the input. -/
theorem wordsAux_mem :
    ∀ (fuel : Nat) (s : Str), s.length ≤ fuel →
      ∀ w ∈ wordsAux fuel s,
        w ≠ [] ∧ ∀ c ∈ w, isSpace c = false ∧ c ∈ s := by
  intro fuel
  induction fuel with
  | zero =>
    intro s hl w hw
    have hnil : s = [] := List.eq_nil_of_length_eq_zero (Nat.le_zero.mp hl)
    subst hnil
    rw [wordsAux_nil] at hw
    exact absurd hw (List.not_mem_nil w)
  | succ fuel ih =>
    intro s hl w hw
    match s with
    | [] =>
      rw [wordsAux_nil] at hw
      exact absurd hw (List.not_mem_nil w)
    | c :: cs =>
      have hcs : cs.length ≤ fuel := by
        simp only [List.length_cons] at hl
        omega
      by_cases hc : isSpace c
      · have hstep : wordsAux (fuel + 1) (c :: cs) = wordsAux fuel cs := by
          simp only [wordsAux, if_pos hc]
        rw [hstep] at hw
        obtain ⟨h1, h2⟩ := ih cs hcs w hw
        exact ⟨h1, fun d hd =>
          ⟨(h2 d hd).1, List.mem_cons_of_mem c (h2 d hd).2⟩⟩
      · have hstep : wordsAux (fuel + 1) (c :: cs) =
            (c :: cs.takeWhile (fun d => !isSpace d)) ::
              wordsAux fuel (cs.dropWhile (fun d => !isSpace d)) := by
          simp only [wordsAux, if_neg hc]
        rw [hstep] at hw
        rcases List.mem_cons.mp hw with hw | hw
        · subst hw
          refine ⟨by simp, ?_⟩
          intro d hd
          rcases List.mem_cons.mp hd with hd | hd
          · rw [hd]
            exact ⟨Bool.of_not_eq_true hc, List.mem_cons_self c cs⟩
          · have hp := mem_takeWhile_pred hd
            have hm := List.takeWhile_subset (fun d => !isSpace d) hd
            refine ⟨?_, List.mem_cons_of_mem c hm⟩
            simpa using hp
        · have hdl : (cs.dropWhile (fun d => !isSpace d)).length ≤ fuel :=
            Nat.le_trans
              ((List.dropWhile_sublist (fun d => !isSpace d)).length_le) hcs
          obtain ⟨h1, h2⟩ := ih _ hdl w hw
          refine ⟨h1, fun d hd => ⟨(h2 d hd).1, ?_⟩⟩
          have := List.dropWhile_subset (fun d => !isSpace d) ((h2 d hd).2)
          exact List.mem_cons_of_mem c this

/-- Round trip: `wordsAux` recovers a list of non-empty, whitespace-free
tokens from their space-joined rendering. -/
theorem wordsAux_joinSp :
    ∀ (ws : List Str) (fuel : Nat), (joinSp ws).length ≤ fuel →
      (∀ w ∈ ws, w ≠ [] ∧ ∀ c ∈ w, isSpace c = false) →
      wordsAux fuel (joinSp ws) = ws := by
  intro ws
  induction ws with
  | nil =>
    intro fuel _ _
    exact wordsAux_nil fuel
  | cons w ws ih =>
    intro fuel hl hall
    obtain ⟨hw0, hwc⟩ := hall w (List.mem_cons_self w ws)
    match w, hw0 with
    | c :: cs, _ =>
      have hc : isSpace c = false := hwc c (List.mem_cons_self c cs)
      have hcsall : ∀ x ∈ cs, (fun d => !isSpace d) x = true := by
        intro x hx
        simp [hwc x (List.mem_cons_of_mem c hx)]
      match ws with
      | [] =>
        have hj : joinSp [c :: cs] = c :: cs := rfl
        rw [hj] at hl ⊢
        cases fuel with
        | zero =>
          exfalso
          simp only [List.length_cons] at hl
          omega
        | succ f =>
          have hstep : wordsAux (f + 1) (c :: cs) =
              (c :: cs.takeWhile (fun d => !isSpace d)) ::
                wordsAux f (cs.dropWhile (fun d => !isSpace d)) := by
            simp only [wordsAux, hc]
            rfl
          rw [hstep, takeWhile_all hcsall, dropWhile_all hcsall,
            wordsAux_nil]
      | w' :: ws' =>
        have hj : joinSp ((c :: cs) :: w' :: ws') =
            c :: (cs ++ ' ' :: joinSp (w' :: ws')) := rfl
        rw [hj] at hl ⊢
        cases fuel with
        | zero =>
          exfalso
          simp only [List.length_cons] at hl
          omega
        | succ f =>
          have hsp : (fun d => !isSpace d) ' ' = false := by decide
          have hstep : wordsAux (f + 1)
              (c :: (cs ++ ' ' :: joinSp (w' :: ws'))) =
              (c :: (cs ++ ' ' :: joinSp (w' :: ws')).takeWhile
                  (fun d => !isSpace d)) ::
                wordsAux f ((cs ++ ' ' :: joinSp (w' :: ws')).dropWhile
                  (fun d => !isSpace d)) := by
            simp only [wordsAux, hc]
            rfl
          rw [hstep, takeWhile_app cs ' ' _ hcsall hsp,
            dropWhile_app cs ' ' _ hcsall hsp]
          have hlen : (joinSp (w' :: ws')).length + 1 ≤ f := by
            simp only [List.length_cons, List.length_append,
              List.length_cons] at hl
            omega
          cases f with
          | zero =>
            exfalso
            omega
          | succ f' =>
            have hstep2 : wordsAux (f' + 1) (' ' :: joinSp (w' :: ws')) =
                wordsAux f' (joinSp (w' :: ws')) := rfl
            rw [hstep2,
              ih f' (by omega)
                (fun v hv => hall v (List.mem_cons_of_mem _ hv))]

/-- Characters of a space-joined token list are the separator or token
characters. -/
theorem mem_joinSp :
    ∀ (ws : List Str) (c : Char), c ∈ joinSp ws →
      c = ' ' ∨ ∃ w ∈ ws, c ∈ w := by
  intro ws
  induction ws with
  | nil =>
    intro c hc
    exact absurd hc (List.not_mem_nil c)
  | cons w ws ih =>
    intro c hc
    match ws with
    | [] =>
      right
      exact ⟨w, List.mem_cons_self w [], hc⟩
    | w' :: ws' =>
      have hj : joinSp (w :: w' :: ws') = w ++ ' ' :: joinSp (w' :: ws') :=
        rfl
      rw [hj] at hc
      rcases List.mem_append.mp hc with h | h
      · right
        exact ⟨w, List.mem_cons_self w _, h⟩
      · rcases List.mem_cons.mp h with h | h
        · left
          exact h
        · rcases ih c h with h | ⟨v, hv, hcv⟩
          · left
            exact h
          · right
            exact ⟨v, List.mem_cons_of_mem w hv, hcv⟩

/-- Whitespace normalization is idempotent. -/
theorem normalizeWs_idem (s : Str) :
    normalizeWs (normalizeWs s) = normalizeWs s := by
  unfold normalizeWs pyWords
  rw [wordsAux_joinSp (wordsAux s.length s) _ (Nat.le_refl _)]
  intro w hw
  obtain ⟨h1, h2⟩ := wordsAux_mem s.length s (Nat.le_refl _) w hw
  exact ⟨h1, fun c hc => (h2 c hc).1⟩

/-- Every character of a normalized string is the space separator or a
non-whitespace character of the input. -/
theorem mem_normalizeWs {s : Str} {c : Char} (hc : c ∈ normalizeWs s) :
    c = ' ' ∨ (isSpace c = false ∧ c ∈ s) := by
  unfold normalizeWs pyWords at hc
  rcases mem_joinSp _ c hc with h | ⟨w, hw, hcw⟩
  · left
    exact h
  · right
    exact (wordsAux_mem s.length s (Nat.le_refl _) w hw).2 c hcw

/-- Python `replace` is the identity when the pattern does not occur. -/
theorem replaceChar_id {c : Char} {r : Str} :
    ∀ {s : Str}, c ∉ s → replaceChar c r s = s := by
  intro s
  induction s with
  | nil => intro _; rfl
  | cons a s ih =>
    intro h
    have hac : a ≠ c := fun hac => h (hac ▸ List.mem_cons_self a s)
    have hs : c ∉ s := fun hs => h (List.mem_cons_of_mem a hs)
    simp only [replaceChar, List.flatMap_cons, if_neg hac]
    have := ih hs
    simp only [replaceChar] at this
    rw [this]
    rfl

/-- The escape chain is the identity on strings free of all five escaped
characters. -/
theorem escapeGql_id {s : Str} (h1 : '\\' ∉ s) (h2 : '"' ∉ s)
    (h3 : '\n' ∉ s) (h4 : '\r' ∉ s) (h5 : '\t' ∉ s) :
    escapeGql s = s := by
  unfold escapeGql
  rw [replaceChar_id h1, replaceChar_id h2, replaceChar_id h3,
    replaceChar_id h4, replaceChar_id h5]

/-- On inputs free of backslash and double quote, sanitization is just
whitespace normalization (the escapes do not fire: the normalized string
contains no backslash or quote, and its whitespace is only the space
separator). -/
theorem sanitize_eq_normalize {x : Str} (hb : '\\' ∉ x) (hq : '"' ∉ x) :
    sanitize_graphql_string (.s x) = normalizeWs x := by
  have hmem : ∀ c, c ∈ normalizeWs x → c = ' ' ∨ (isSpace c = false ∧ c ∈ x) :=
    fun c hc => mem_normalizeWs hc
  have h1 : '\\' ∉ normalizeWs x := by
    intro h
    rcases hmem _ h with h | ⟨_, h⟩
    · exact absurd h (by decide)
    · exact hb h
  have h2 : '"' ∉ normalizeWs x := by
    intro h
    rcases hmem _ h with h | ⟨_, h⟩
    · exact absurd h (by decide)
    · exact hq h
  have h3 : '\n' ∉ normalizeWs x := by
    intro h
    rcases hmem _ h with h | ⟨h, _⟩
    · exact absurd h (by decide)
    · exact absurd h (by decide)
  have h4 : '\r' ∉ normalizeWs x := by
    intro h
    rcases hmem _ h with h | ⟨h, _⟩
    · exact absurd h (by decide)
    · exact absurd h (by decide)
  have h5 : '\t' ∉ normalizeWs x := by
    intro h
    rcases hmem _ h with h | ⟨h, _⟩
    · exact absurd h (by decide)
    · exact absurd h (by decide)
  show escapeGql (normalizeWs x) = normalizeWs x
  exact escapeGql_id h1 h2 h3 h4 h5

/-- Helper `digitChar'` produces decimal digit characters. -/
theorem digitChar'_isDigit (n : Nat) : (digitChar' n).isDigit = true := by
  unfold digitChar'
  split <;> decide

/-- The character value of a digit character below 10. -/
theorem digitChar'_toNat {n : Nat} (h : n < 10) :
    (digitChar' n).toNat - 48 = n := by
  interval_cases n <;> decide

/-- Every character of `natDecAux` (with sufficient fuel) is a digit. -/
theorem natDecAux_digits :
    ∀ (fuel n : Nat), n < fuel → ∀ c ∈ natDecAux fuel n,
      c.isDigit = true := by
  intro fuel
  induction fuel with
  | zero =>
    intro n h
    exact absurd h (Nat.not_lt_zero n)
  | succ fuel ih =>
    intro n h c hc
    by_cases h10 : n < 10
    · have hstep : natDecAux (fuel + 1) n = [digitChar' n] := by
        simp only [natDecAux, if_pos h10]
      rw [hstep] at hc
      rcases List.mem_cons.mp hc with hc | hc
      · rw [hc]
        exact digitChar'_isDigit n
      · exact absurd hc (List.not_mem_nil c)
    · have hstep : natDecAux (fuel + 1) n =
          natDecAux fuel (n / 10) ++ [digitChar' (n % 10)] := by
        simp only [natDecAux, if_neg h10]
      rw [hstep] at hc
      rcases List.mem_append.mp hc with hc | hc
      · exact ih (n / 10) (by omega) c hc
      · rcases List.mem_cons.mp hc with hc | hc
        · rw [hc]
          exact digitChar'_isDigit (n % 10)
        · exact absurd hc (List.not_mem_nil c)

/-- Every character of `natDec n` is a digit. -/
theorem natDec_digits (n : Nat) : ∀ c ∈ natDec n, c.isDigit = true :=
  natDecAux_digits (n + 1) n (Nat.lt_succ_self n)

/-- Parsing inverts rendering (with sufficient fuel). -/
theorem parseDec_natDecAux :
    ∀ (fuel n : Nat), n < fuel → parseDec (natDecAux fuel n) = n := by
  intro fuel
  induction fuel with
  | zero =>
    intro n h
    exact absurd h (Nat.not_lt_zero n)
  | succ fuel ih =>
    intro n h
    by_cases h10 : n < 10
    · have hstep : natDecAux (fuel + 1) n = [digitChar' n] := by
        simp only [natDecAux, if_pos h10]
      rw [hstep]
      show 10 * 0 + ((digitChar' n).toNat - 48) = n
      rw [digitChar'_toNat h10]
      omega
    · have hstep : natDecAux (fuel + 1) n =
          natDecAux fuel (n / 10) ++ [digitChar' (n % 10)] := by
        simp only [natDecAux, if_neg h10]
      rw [hstep]
      unfold parseDec
      rw [List.foldl_append]
      have hrec : List.foldl (fun a c => 10 * a + (c.toNat - 48)) 0
          (natDecAux fuel (n / 10)) = n / 10 := ih (n / 10) (by omega)
      rw [hrec]
      show 10 * (n / 10) + ((digitChar' (n % 10)).toNat - 48) = n
      rw [digitChar'_toNat (Nat.mod_lt n (by omega))]
      omega

/-- Rendering `natDec` is injective: equal renderings parse back to equal numbers. -/
theorem natDec_inj {a b : Nat} (h : natDec a = natDec b) : a = b := by
  have ha := parseDec_natDecAux (a + 1) a (Nat.lt_succ_self a)
  have hb := parseDec_natDecAux (b + 1) b (Nat.lt_succ_self b)
  unfold natDec at h
  rw [← ha, ← hb, h]

/-- A digit character is a word character. -/
theorem digit_wordChar {c : Char} (h : c.isDigit = true) :
    isWordChar c = true := by
  simp [isWordChar, Char.isAlphanum, h]

/-- A digit character is not an underscore. -/
theorem digit_ne_underscore {c : Char} (h : c.isDigit = true) :
    c ≠ '_' := by
  intro heq
  rw [heq] at h
  exact absurd h (by decide)

/-- Mapping a function that fixes every element is the identity. -/
theorem map_id_chars {f : Char → Char} :
    ∀ {l : Str}, (∀ c ∈ l, f c = c) → l.map f = l := by
  intro l
  induction l with
  | nil => intro _; rfl
  | cons c cs ih =>
    intro h
    simp only [List.map_cons]
    rw [h c (List.mem_cons_self c cs),
      ih (fun d hd => h d (List.mem_cons_of_mem c hd))]

/-- The `\W` replacement fixes the digits of `natDec`. -/
theorem map_phiW_natDec (n : Nat) : (natDec n).map phiW = natDec n := by
  apply map_id_chars
  intro c hc
  unfold phiW
  rw [if_pos (digit_wordChar (natDec_digits n c hc))]

/-- Cancellation at the first underscore separator: underscore-free
prefixes followed by an underscore determine the split. -/
theorem underscore_sep_inj :
    ∀ (a : Str) (b : Str) (x y : Str), (∀ c ∈ a, c ≠ '_') →
      (∀ c ∈ b, c ≠ '_') → a ++ '_' :: x = b ++ '_' :: y →
      a = b ∧ x = y := by
  intro a
  induction a with
  | nil =>
    intro b x y _ hb h
    match b with
    | [] =>
      simp only [List.nil_append, List.cons.injEq] at h
      exact ⟨rfl, h.2⟩
    | d :: b' =>
      simp only [List.nil_append, List.cons_append, List.cons.injEq] at h
      exact absurd h.1.symm (hb d (List.mem_cons_self d b'))
  | cons c a' ih =>
    intro b x y ha hb h
    match b with
    | [] =>
      simp only [List.nil_append, List.cons_append, List.cons.injEq] at h
      exact absurd h.1 (ha c (List.mem_cons_self c a'))
    | d :: b' =>
      simp only [List.cons_append, List.cons.injEq] at h
      obtain ⟨hcd, hrest⟩ := h
      obtain ⟨h1, h2⟩ := ih b' x y
        (fun e he => ha e (List.mem_cons_of_mem c he))
        (fun e he => hb e (List.mem_cons_of_mem d he)) hrest
      exact ⟨by rw [hcd, h1], h2⟩

/-- The leading-digit decision of `reSub` on `f"{alias_action}_..."`
depends only on the action part. -/
theorem headDigit_append (aa rest : Str) :
    headDigit (aa ++ '_' :: rest) = hdFlag aa := by
  cases aa <;> rfl

/-- Helper `hdFlag` ignores everything from the first underscore on. -/
theorem hdFlag_append (aa rest : Str) :
    hdFlag (aa ++ '_' :: rest) = hdFlag aa := by
  cases aa <;> rfl

/-- The alias of record number `i` decomposes into a shared prefix, the
decimal index, an underscore, and the mapped key-value rendering. -/
theorem alias_decomp (action : Str) (fm : FieldMapping) (i : Nat)
    (r : Record) :
    sMut ++ uniqueSuffix action fm i r =
      aliasQ action ++ (natDec i ++ '_' :: (keyJoin fm r).map phiW) := by
  simp only [uniqueSuffix, reSub, aliasQ, keyJoin, List.cons_append]
  rw [headDigit_append]
  simp only [List.map_append, List.map_cons, map_phiW_natDec,
    List.append_assoc, List.cons_append]
  have hphi : phiW '_' = '_' := rfl
  rw [hphi, hdFlag_append]
  simp only [List.nil_append]

/-- Fragments of distinct records in one `build_pipefy_mutations` call
have distinct aliases, whatever suffixes are appended: the shared prefix
cancels and the underscore-free decimal indices must then agree. -/
theorem alias_index_inj {action : Str} {fm : FieldMapping} {i j : Nat}
    {r1 r2 : Record} {t1 t2 : Str}
    (h : sMut ++ uniqueSuffix action fm i r1 ++ t1 =
      sMut ++ uniqueSuffix action fm j r2 ++ t2) : i = j := by
  rw [alias_decomp, alias_decomp] at h
  simp only [List.append_assoc, List.cons_append] at h
  have h2 := List.append_cancel_left h
  obtain ⟨hdec, _⟩ := underscore_sep_inj _ _ _ _
    (fun c hc => digit_ne_underscore (natDec_digits i c hc))
    (fun c hc => digit_ne_underscore (natDec_digits j c hc)) h2
  exact natDec_inj hdec

/-- Appending the title suffix changes a string (the lengths differ). -/
theorem ne_append_ttl (l : Str) : l ≠ l ++ sTtl := by
  intro h
  have hlen := congrArg List.length h
  rw [List.length_append] at hlen
  have h4 : sTtl.length = 4 := rfl
  omega

/-- Every fragment of record number `i` carries that record's alias,
bare or with the `_ttl` suffix. -/
theorem buildOne_alias_mem {tid action : Str} {fm : FieldMapping}
    {dp : Option Str} {i : Nat} {r : Record} {m : Mutation}
    (hm : m ∈ buildOne tid action fm dp i r) :
    m.aliasName = sMut ++ uniqueSuffix action fm i r ∨
      m.aliasName = sMut ++ uniqueSuffix action fm i r ++ sTtl := by
  simp only [buildOne] at hm
  split at hm
  · split at hm
    · exact absurd hm (List.not_mem_nil m)
    · rw [List.mem_singleton] at hm
      subst hm
      left
      rfl
  · split at hm
    · split at hm
      · exact absurd hm (List.not_mem_nil m)
      · split at hm
        · rcases List.mem_append.mp hm with h | h
          · split at h
            · rw [List.mem_singleton] at h
              subst h
              left
              rfl
            · exact absurd h (List.not_mem_nil m)
          · split at h
            · rw [List.mem_singleton] at h
              subst h
              right
              rfl
            · exact absurd h (List.not_mem_nil m)
        · exact absurd hm (List.not_mem_nil m)
    · split at hm
      · split at hm
        · exact absurd hm (List.not_mem_nil m)
        · split at hm
          · rw [List.mem_singleton] at hm
            subst hm
            left
            rfl
          · rw [List.mem_singleton] at hm
            subst hm
            left
            rfl
      · exact absurd hm (List.not_mem_nil m)

/-- The (at most two) aliases contributed by one record are distinct. -/
theorem buildOne_aliases_nodup (tid action : Str) (fm : FieldMapping)
    (dp : Option Str) (i : Nat) (r : Record) :
    ((buildOne tid action fm dp i r).map Mutation.aliasName).Nodup := by
  simp only [buildOne]
  split
  · -- create
    split
    · simp
    · simp
  · split
    · -- update
      split
      · simp
      · split
        · -- at least one of the two fragments
          split
          · split
            · -- both fragments: the two aliases differ in length
              simp only [List.cons_append, List.nil_append, List.map_cons,
                List.map_nil, List.nodup_cons, List.mem_singleton,
                List.not_mem_nil, not_false_iff, List.nodup_nil, and_true]
              exact ne_append_ttl _
            · simp
          · split
            · simp
            · simp
        · simp
    · split
      · -- archive
        split
        · simp
        · split
          · simp
          · simp
      · simp

/-- C7: within one `build_pipefy_mutations` call the fragment aliases
are pairwise distinct for every record list, table, action, field
mapping and resolved phase: the shared prefix cancels, the decimal
record index is underscore-free and injective, and a record's bare and
`_ttl` aliases differ in length. -/
theorem build_aliases_nodup (records : List Record) (tid action : Str)
    (fm : FieldMapping) (dp : Option Str) :
    ((build_pipefy_mutations records tid action fm dp).map
      Mutation.aliasName).Nodup := by
  unfold build_pipefy_mutations
  rw [List.map_flatten, List.map_map, List.nodup_flatten]
  constructor
  · intro l hl
    obtain ⟨p, _, rfl⟩ := List.mem_map.mp hl
    exact buildOne_aliases_nodup tid action fm dp p.1 p.2
  · rw [List.pairwise_map]
    have hnd : records.enum.Pairwise
        (fun p q : Nat × Record => p.1 ≠ q.1) :=
      List.pairwise_map.mp (List.nodup_enum_map_fst records)
    refine hnd.imp ?_
    intro p q hpq
    intro a ha hb
    simp only [Function.comp_apply] at ha hb
    obtain ⟨m1, hm1, rfl⟩ := List.mem_map.mp ha
    obtain ⟨m2, hm2, heq⟩ := List.mem_map.mp hb
    rcases buildOne_alias_mem hm1 with h1 | h1 <;>
      rcases buildOne_alias_mem hm2 with h2 | h2
    · have hcomb : sMut ++ uniqueSuffix action fm q.1 q.2 =
          sMut ++ uniqueSuffix action fm p.1 p.2 :=
        (h2.symm.trans heq).trans h1
      have hcomb2 : sMut ++ uniqueSuffix action fm q.1 q.2 ++ ([] : Str) =
          sMut ++ uniqueSuffix action fm p.1 p.2 ++ ([] : Str) := by
        simpa using hcomb
      exact hpq (alias_index_inj hcomb2).symm
    · have hcomb : sMut ++ uniqueSuffix action fm q.1 q.2 ++ sTtl =
          sMut ++ uniqueSuffix action fm p.1 p.2 :=
        (h2.symm.trans heq).trans h1
      have hcomb2 : sMut ++ uniqueSuffix action fm q.1 q.2 ++ sTtl =
          sMut ++ uniqueSuffix action fm p.1 p.2 ++ ([] : Str) := by
        simpa using hcomb
      exact hpq (alias_index_inj hcomb2).symm
    · have hcomb : sMut ++ uniqueSuffix action fm q.1 q.2 =
          sMut ++ uniqueSuffix action fm p.1 p.2 ++ sTtl :=
        (h2.symm.trans heq).trans h1
      have hcomb2 : sMut ++ uniqueSuffix action fm q.1 q.2 ++ ([] : Str) =
          sMut ++ uniqueSuffix action fm p.1 p.2 ++ sTtl := by
        simpa using hcomb
      exact hpq (alias_index_inj hcomb2).symm
    · have hcomb : sMut ++ uniqueSuffix action fm q.1 q.2 ++ sTtl =
          sMut ++ uniqueSuffix action fm p.1 p.2 ++ sTtl :=
        (h2.symm.trans heq).trans h1
      exact hpq (alias_index_inj hcomb).symm

/-- A Python dict is never empty after an assignment. -/
theorem dictSet_ne_nil {β : Type} (d : List (Str × β)) (k : Str) (v : β) :
    dictSet d k v ≠ [] := by
  cases d with
  | nil => simp [dictSet]
  | cons kv rest =>
    simp only [dictSet]
    split <;> simp

/-- The synthesized client-error message of `pipefy_post` never equals
its synthesized exhausted-retries message (they differ at index 7). -/
theorem client_ne_exhausted (d : Str) :
    msgClientErrorHead ++ d ≠ msgExhausted := by
  intro h
  have h7 : (msgClientErrorHead ++ d)[7]? = msgExhausted[7]? := by rw [h]
  rw [List.getElem?_append_left (by decide)] at h7
  exact absurd h7 (by decide)

/-! ## Claims -/

/-- C10: `execute_pipefy_mutations` applied to an empty fragment list
returns `True` (line 369-371) for every transport environment — the
result does not depend on `env`, so no network request is issued — and
the empty list also forms zero batches. -/
theorem execute_empty_true (env : Nat → BatchResp) :
    execute_pipefy_mutations [] env = true ∧
      chunksOf ([] : List Mutation) = [] :=
  ⟨rfl, rfl⟩

/-- C9: for a non-empty fragment list, the batching partitions it into
exactly `⌈N/50⌉` batches of size at most 50 whose in-order concatenation
is the original list: nothing is dropped, duplicated, or reordered. -/
theorem batching_partitions (muts : List Mutation) (_h : muts ≠ []) :
    (chunksOf muts).flatten = muts ∧
    (chunksOf muts).length = (muts.length + 50 - 1) / 50 ∧
    ∀ c ∈ chunksOf muts, c.length ≤ 50 := by
  obtain ⟨h1, h2, h3⟩ := chunksAux_spec muts.length muts (Nat.le_refl _)
  refine ⟨h1, ?_, h3⟩
  have h49 : muts.length + 50 - 1 = muts.length + 49 := by omega
  rw [h49]
  exact h2

/-- Witness for C9 at a concrete one-element list. -/
theorem batching_partitions_witness :
    ([exMutation] ≠ []) ∧
      ((chunksOf [exMutation]).flatten = [exMutation] ∧
       (chunksOf [exMutation]).length = (([exMutation] : List Mutation).length + 50 - 1) / 50 ∧
       ∀ c ∈ chunksOf [exMutation], c.length ≤ 50) :=
  ⟨by decide, batching_partitions [exMutation] (by decide)⟩

/-- C2 (failing input): the create-branch guard
`all(str(record.get(k)) for k in key_identifiers if k in record)`
filters out key attributes *missing* from the record, so a record
missing every declared key attribute passes the guard vacuously and a
create fragment is emitted — the claim (and the branch's own log
message about missing key identifiers) require it to be skipped. -/
theorem create_missing_key_not_skipped :
    createKeysOk bu_agency_field_map exCreateMissingKeys = true ∧
    (build_pipefy_mutations [exCreateMissingKeys] exTableId sCreate
        bu_agency_field_map none).length = 1 := by
  decide

/-- C5 (counterexample): sanitization is not idempotent — a lone double
quote sanitizes to backslash-quote, whose backslash is escaped again on
re-sanitization. -/
theorem sanitize_not_idempotent :
    sanitize_graphql_string (.s (sanitize_graphql_string (.s ['"']))) ≠
      sanitize_graphql_string (.s ['"']) := by
  decide

/-- C5 (amended): on strings containing neither backslash nor double
quote — where the escape step introduces no new characters —
sanitization is idempotent: it reduces to whitespace normalization,
which is idempotent. -/
theorem sanitize_idempotent_no_escapes (x : Str)
    (hb : '\\' ∉ x) (hq : '"' ∉ x) :
    sanitize_graphql_string (.s (sanitize_graphql_string (.s x))) =
      sanitize_graphql_string (.s x) := by
  rw [sanitize_eq_normalize hb hq]
  have hb2 : '\\' ∉ normalizeWs x := by
    intro h
    rcases mem_normalizeWs h with h | ⟨_, h⟩
    · exact absurd h (by decide)
    · exact hb h
  have hq2 : '"' ∉ normalizeWs x := by
    intro h
    rcases mem_normalizeWs h with h | ⟨_, h⟩
    · exact absurd h (by decide)
    · exact hq h
  rw [sanitize_eq_normalize hb2 hq2, normalizeWs_idem]

/-- Witness for C5's amended statement on a concrete escape-free string
with collapsible whitespace. -/
theorem sanitize_idempotent_no_escapes_witness :
    ('\\' ∉ "a  b".data) ∧ ('"' ∉ "a  b".data) ∧
      sanitize_graphql_string
          (.s (sanitize_graphql_string (.s ("a  b".data)))) =
        sanitize_graphql_string (.s ("a  b".data)) :=
  ⟨by decide, by decide,
   sanitize_idempotent_no_escapes ("a  b".data) (by decide) (by decide)⟩

/-- C8: provided each parsed batch response carries one data entry per
fragment of its batch (`respLenOk`), `execute_pipefy_mutations` returns
`True` exactly when every batch's response parsed without errors and
every alias in it was classified as success. The fold clears the
aggregate flag on a failed batch but still consumes every remaining
batch (`exec_foldl`), so no batch-level failure prevents submission of
the rest. -/
theorem execute_aggregate_iff (muts : List Mutation) (env : Nat → BatchResp)
    (H : ∀ p ∈ (chunksOf muts).enum, respLenOk (env p.1) p.2 = true) :
    execute_pipefy_mutations muts env = true ↔
      ∀ p ∈ (chunksOf muts).enum, batchAllOk (env p.1) = true := by
  unfold execute_pipefy_mutations
  by_cases hemp : muts.isEmpty
  · have hm : muts = [] := List.isEmpty_iff.mp hemp
    subst hm
    have h0 : chunksOf ([] : List Mutation) = [] := rfl
    rw [h0]
    simp
  · rw [if_neg hemp, exec_foldl, Bool.true_and, List.all_eq_true]
    constructor
    · intro hall p hp
      have hv := hall p hp
      have hlen := H p hp
      cases henv : env p.1 with
      | failedResp =>
        rw [henv] at hv
        exact absurd hv (by simp [batchVerdict])
      | okResp data =>
        rw [henv] at hv hlen
        simp only [batchVerdict, decide_eq_true_eq] at hv
        simp only [respLenOk, decide_eq_true_eq] at hlen
        simp only [batchAllOk]
        rw [← countSuccess_eq_iff]
        omega
    · intro hall p hp
      have hv := hall p hp
      have hlen := H p hp
      cases henv : env p.1 with
      | failedResp =>
        rw [henv] at hv
        exact absurd hv (by simp [batchAllOk])
      | okResp data =>
        rw [henv] at hv hlen
        simp only [batchAllOk] at hv
        simp only [respLenOk, decide_eq_true_eq] at hlen
        simp only [batchVerdict, decide_eq_true_eq]
        rw [← countSuccess_eq_iff] at hv
        omega

/-- Witness for C8: one fragment, one batch, one successful alias. -/
theorem execute_aggregate_iff_witness :
    (∀ p ∈ (chunksOf [exMutation]).enum,
        respLenOk ((fun _ => BatchResp.okResp [(['a'], .dict true false)]) p.1)
          p.2 = true) ∧
      (execute_pipefy_mutations [exMutation]
          (fun _ => BatchResp.okResp [(['a'], .dict true false)]) = true ↔
        ∀ p ∈ (chunksOf [exMutation]).enum,
          batchAllOk ((fun _ => BatchResp.okResp [(['a'], .dict true false)])
            p.1) = true) :=
  ⟨by decide,
   execute_aggregate_iff [exMutation]
     (fun _ => BatchResp.okResp [(['a'], .dict true false)]) (by decide)⟩

/-- C6 (counterexample): `chase_api_get` returns the same value
(Python `None`) after exhausting its three attempts on timeouts, on a
non-429 4xx client error, and on an unparseable body — the three
failures are not distinguishable as values. -/
theorem chase_failures_indistinguishable :
    (@chase_api_get Nat .timeout .timeout .timeout =
      @chase_api_get Nat (.httpError (some 404)) .timeout .timeout) ∧
    (@chase_api_get Nat .timeout .timeout .timeout =
      @chase_api_get Nat .okInvalidJson .timeout .timeout) := by
  decide

/-- C6 (amended): for the Pipefy transport the exhausted-retries result
is a distinguishable value — its synthesized message differs from both
the client-error and the non-JSON messages — while the Chase transport
collapses all three failures to `None`. -/
theorem transport_failure_values (d : Str) (a b : PipefyAttempt Nat) :
    pipefy_post (PipefyAttempt.timeout : PipefyAttempt Nat) .timeout .timeout =
      .errorsDoc msgExhausted ∧
    pipefy_post (.httpError (some 404) d) a b =
      .errorsDoc (msgClientErrorHead ++ d) ∧
    pipefy_post (PipefyAttempt.okInvalidJson : PipefyAttempt Nat) a b =
      .errorsDoc msgNonJson ∧
    (PipefyResp.errorsDoc (α := Nat) msgExhausted ≠
      .errorsDoc (msgClientErrorHead ++ d)) ∧
    (PipefyResp.errorsDoc (α := Nat) msgExhausted ≠ .errorsDoc msgNonJson) ∧
    @chase_api_get Nat .timeout .timeout .timeout = none ∧
    @chase_api_get Nat (.httpError (some 404)) .timeout .timeout = none ∧
    @chase_api_get Nat .okInvalidJson .timeout .timeout = none := by
  refine ⟨rfl, ?_, rfl, ?_, by decide, rfl, rfl, rfl⟩
  · have hc : clientErrorNoRetry (some 404) = true := by decide
    simp [pipefy_post, pipefy_run, hc]
  · intro h
    have := (PipefyResp.errorsDoc.injEq (α := Nat) _ _).mp h
    exact client_ne_exhausted d this.symm

/-- C1: a record present in both keyed maps whose destination values all
match the sanitized source values on non-key mapped attributes, whose
destination title equals the source-derived title, and whose status is
already `"Active"`, contributes to none of `to_create`, `to_update`,
`to_archive` — `sync_diff` builds those lists by `filterMap` of exactly
these three classifiers over the map entries, so no mutation is emitted
for it. -/
theorem matched_identical_no_mutation
    (fm : FieldMapping) (cm pm : List (Str × Record)) (k : Str)
    (cr pr : Record)
    (hcm : dget cm k = some cr) (hpm : dget pm k = some pr)
    (hfields : ∀ kv ∈ fm.fields, kv.1 ∉ fm.keys →
      pipefyNormVal (pyGet pr kv.2) = sanitize_graphql_string (pyGet cr kv.1))
    (htitle : pyGetD pr sTitle (.s []) = .s (derive_title cr))
    (hstatus : pyGet pr sStatus = .s sActive) :
    classify_create pm (k, cr) = none ∧
    classify_update fm pm (k, cr) = none ∧
    classify_archive cm (k, pr) = none := by
  have hA : (fm.fields.any (fun kv =>
      decide (kv.1 ∉ fm.keys) &&
      decide (sanitize_graphql_string (pyGet cr kv.1) ≠
        pipefyNormVal (pyGet pr kv.2)))) = false := by
    rw [List.any_eq_false]
    intro kv hkv
    by_cases hk : kv.1 ∈ fm.keys
    · simp [hk]
    · rw [hfields kv hkv hk]
      simp
  have hB : (!(derive_title cr).isEmpty &&
      decide (pyGetD pr sTitle (.s []) ≠ PyVal.s (derive_title cr)))
      = false := by
    rw [htitle]
    simp
  have hC : decide (pyGet pr sStatus ≠ PyVal.s sActive) = false := by
    rw [hstatus]
    simp
  have hnu : needs_update fm cr pr = false := by
    unfold needs_update
    rw [hA, hB, hC]
    rfl
  refine ⟨?_, ?_, ?_⟩
  · simp [classify_create, hpm]
  · simp [classify_update, hpm, hnu]
  · simp [classify_archive, hcm]

/-- Witness for C1 at the concrete matching pair. -/
theorem matched_identical_no_mutation_witness :
    (dget [(exKey, exChaseEq)] exKey = some exChaseEq) ∧
    (dget [(exKey, exPipefyEq)] exKey = some exPipefyEq) ∧
    (∀ kv ∈ bu_agency_field_map.fields, kv.1 ∉ bu_agency_field_map.keys →
      pipefyNormVal (pyGet exPipefyEq kv.2) =
        sanitize_graphql_string (pyGet exChaseEq kv.1)) ∧
    (pyGetD exPipefyEq sTitle (.s []) = .s (derive_title exChaseEq)) ∧
    (pyGet exPipefyEq sStatus = .s sActive) ∧
    (classify_create [(exKey, exPipefyEq)] (exKey, exChaseEq) = none ∧
     classify_update bu_agency_field_map [(exKey, exPipefyEq)]
       (exKey, exChaseEq) = none ∧
     classify_archive [(exKey, exChaseEq)] (exKey, exPipefyEq) = none) :=
  ⟨by decide, by decide, by decide, by decide, by decide,
   matched_identical_no_mutation bu_agency_field_map
     [(exKey, exChaseEq)] [(exKey, exPipefyEq)] exKey exChaseEq exPipefyEq
     (by decide) (by decide) (by decide) (by decide) (by decide)⟩

/-- C4: a destination-only record (key absent from the source map) is
classified as ARCHIVE exactly when its status is not `"Archived"`, and
its archive fragment targets a phase transition to the resolved
terminal phase when one exists, else the status-field fallback
(the fallback's warning log is an I/O effect outside the model). -/
theorem archive_classification_and_target
    (cm : List (Str × Record)) (k : Str) (pr : Record) (tid : Str)
    (fm : FieldMapping)
    (hcm : dget cm k = none)
    (hrid : pyTruthy (pyGet pr sPipefyRecordId) = true) :
    (pyGet pr sStatus ≠ .s sArchived →
      classify_archive cm (k, pr) = some pr) ∧
    (pyGet pr sStatus = .s sArchived →
      classify_archive cm (k, pr) = none) ∧
    (∀ ph : Str, build_pipefy_mutations [pr] tid sArchive fm (some ph) =
      [⟨sMut ++ uniqueSuffix sArchive fm 0 pr,
        .updateTableRecordField (pyStr (pyGet pr sPipefyRecordId))
          sCurrentPhase ph⟩]) ∧
    (build_pipefy_mutations [pr] tid sArchive fm none =
      [⟨sMut ++ uniqueSuffix sArchive fm 0 pr,
        .updateFieldsValues (pyStr (pyGet pr sPipefyRecordId))
          [(sStatus, sArchived)]⟩]) := by
  have hne1 : sArchive ≠ sCreate := by decide
  have hne2 : sArchive ≠ sUpdate := by decide
  have henum : ([pr] : List Record).enum = [(0, pr)] := rfl
  refine ⟨?_, ?_, ?_, ?_⟩
  · intro hs
    simp [classify_archive, hcm, hs]
  · intro hs
    simp [classify_archive, hcm, hs]
  · intro ph
    unfold build_pipefy_mutations
    rw [henum]
    simp only [List.map_cons, List.map_nil, List.flatten_cons,
      List.flatten_nil, List.append_nil]
    unfold buildOne
    rw [if_neg hne1, if_neg hne2, if_pos rfl, hrid]
    simp
  · unfold build_pipefy_mutations
    rw [henum]
    simp only [List.map_cons, List.map_nil, List.flatten_cons,
      List.flatten_nil, List.append_nil]
    unfold buildOne
    rw [if_neg hne1, if_neg hne2, if_pos rfl, hrid]
    simp

/-- Witness for C4 at the concrete orphaned destination record. -/
theorem archive_classification_and_target_witness :
    (dget ([] : List (Str × Record)) exKey = none) ∧
    (pyTruthy (pyGet exPipefyOrphan sPipefyRecordId) = true) ∧
    ((pyGet exPipefyOrphan sStatus ≠ .s sArchived →
      classify_archive [] (exKey, exPipefyOrphan) = some exPipefyOrphan) ∧
     (pyGet exPipefyOrphan sStatus = .s sArchived →
      classify_archive [] (exKey, exPipefyOrphan) = none) ∧
     (∀ ph : Str,
       build_pipefy_mutations [exPipefyOrphan] exTableId sArchive
           bu_agency_field_map (some ph) =
         [⟨sMut ++ uniqueSuffix sArchive bu_agency_field_map 0 exPipefyOrphan,
           .updateTableRecordField (pyStr (pyGet exPipefyOrphan sPipefyRecordId))
             sCurrentPhase ph⟩]) ∧
     (build_pipefy_mutations [exPipefyOrphan] exTableId sArchive
         bu_agency_field_map none =
       [⟨sMut ++ uniqueSuffix sArchive bu_agency_field_map 0 exPipefyOrphan,
         .updateFieldsValues (pyStr (pyGet exPipefyOrphan sPipefyRecordId))
           [(sStatus, sArchived)]⟩])) :=
  ⟨rfl, by decide,
   archive_classification_and_target [] exKey exPipefyOrphan exTableId
     bu_agency_field_map rfl (by decide)⟩

/-- C3 (counterexample): with only the title-deriving field changed
(`"Old"` → `"New"`, everything else identical and active),
reconciliation yields one update record, and building its mutations
emits one `updateFieldsValues` fragment (the forced status value) —
not zero as claimed — alongside the single title fragment. -/
theorem update_title_only_counterexample :
    (sync_diff [exChaseNewTitle] [exPipefyOldTitle] exTableId
        bu_agency_field_map).2.1 = [exUpdateRec] ∧
    countFieldFrags (build_pipefy_mutations [exUpdateRec] exTableId sUpdate
        bu_agency_field_map none) ≠ 0 ∧
    countTitleFrags (build_pipefy_mutations [exUpdateRec] exTableId sUpdate
        bu_agency_field_map none) = 1 := by
  decide

/-- C3 (amended): an update record with a usable destination id and a
non-empty derived title differing from the stored title always yields
exactly one combined `updateFieldsValues` fragment — the update branch
unconditionally adds the status field to `fields_to_set`, so the
fragment exists even when no non-key, non-title field changed — plus
exactly one `updateTableRecord` title fragment. -/
theorem update_title_only_fragments (fm : FieldMapping) (tid : Str)
    (dp : Option Str) (r : Record)
    (hrid : pyTruthy (pyGet r sPipefyRecordId) = true)
    (hnt : (derive_title r).isEmpty = false)
    (hdiff : pyGetD r sCurrentTitle (.s []) ≠ .s (derive_title r)) :
    countFieldFrags (build_pipefy_mutations [r] tid sUpdate fm dp) = 1 ∧
    countTitleFrags (build_pipefy_mutations [r] tid sUpdate fm dp) = 1 := by
  have hne1 : sUpdate ≠ sCreate := by decide
  have henum : ([r] : List Record).enum = [(0, r)] := rfl
  have hfv : (updateFieldsToSet fm r).isEmpty = false := by
    rw [List.isEmpty_eq_false]
    exact dictSet_ne_nil _ _ _
  have htn : (!(derive_title r).isEmpty &&
      decide (pyGetD r sCurrentTitle (.s []) ≠ PyVal.s (derive_title r)))
      = true := by
    rw [hnt, decide_eq_true hdiff]
    rfl
  unfold build_pipefy_mutations
  rw [henum]
  simp only [List.map_cons, List.map_nil, List.flatten_cons,
    List.flatten_nil, List.append_nil]
  unfold buildOne
  rw [if_neg hne1, if_pos rfl, hrid]
  simp only [Bool.not_true, Bool.false_eq_true, if_false]
  rw [hfv, htn]
  simp [countFieldFrags, countTitleFrags]

/-- Witness for C3's amended statement at the concrete update record. -/
theorem update_title_only_fragments_witness :
    (pyTruthy (pyGet exUpdateRec sPipefyRecordId) = true) ∧
    ((derive_title exUpdateRec).isEmpty = false) ∧
    (pyGetD exUpdateRec sCurrentTitle (.s []) ≠
      .s (derive_title exUpdateRec)) ∧
    (countFieldFrags (build_pipefy_mutations [exUpdateRec] exTableId sUpdate
        bu_agency_field_map none) = 1 ∧
     countTitleFrags (build_pipefy_mutations [exUpdateRec] exTableId sUpdate
        bu_agency_field_map none) = 1) :=
  ⟨by decide, by decide, by decide,
   update_title_only_fragments bu_agency_field_map exTableId none exUpdateRec
     (by decide) (by decide) (by decide)⟩

end ChasePipefy
